import Mathlib

/-!
Verification of the bulk-sync scripts (duplicate cleaner, cutoff purge,
profile scraper) against their natural-language specification.

The Python sources are shallowly embedded: each relevant function is
translated into an executable Lean definition, network interaction is made
explicit by passing the sequence of remote responses as data and returning
the sequence of issued requests as data, and the Python `datetime` library
behaviour the scripts rely on (ISO-8601 parsing, naive/aware comparison
raising `TypeError`, `fromtimestamp`) is modelled by concrete functions.
MD5 hashing is modelled by the hashed string itself (i.e. the hash is
treated as injective, the universal assumption the scripts make).
-/

namespace BskyMemos

/-- Model of a Python `datetime` value: calendar fields plus an optional
UTC offset in minutes (`none` models a naive datetime, `some o` an aware
one). -/
structure PyDateTime where
  year : Int
  month : Nat
  day : Nat
  hour : Nat
  minute : Nat
  second : Nat
  usec : Nat
  tzMinutes : Option Int
deriving DecidableEq

/-- Leap-year test of the proleptic Gregorian calendar, as used by
`datetime`. -/
def isLeap (y : Int) : Bool :=
  y % 4 == 0 && (y % 100 != 0 || y % 400 == 0)

/-- Number of days in a month, as validated by `datetime`. -/
def daysInMonth (y : Int) (m : Nat) : Nat :=
  if m = 2 then (if isLeap y then 29 else 28)
  else if m = 4 ∨ m = 6 ∨ m = 9 ∨ m = 11 then 30
  else 31

/-- Read exactly `n` decimal digits from the front of `cs`, returning the
value and the remaining characters. -/
def readDigits : Nat → Nat → List Char → Option (Nat × List Char)
  | 0, acc, cs => some (acc, cs)
  | n + 1, acc, c :: cs =>
      if c.isDigit then readDigits n (acc * 10 + (c.toNat - 48)) cs else none
  | _ + 1, _, [] => none

/-- Consume one expected character. -/
def expectChar (c : Char) : List Char → Option (List Char)
  | d :: cs => if d = c then some cs else none
  | [] => none

/-- Parse the time-of-day part `HH[:MM[:SS[.ffffff]]]` accepted by
`datetime.fromisoformat`, returning hour, minute, second, microsecond and
the rest of the input. -/
def parseTimePart (cs0 : List Char) : Option (Nat × Nat × Nat × Nat × List Char) := do
  let (h, cs1) ← readDigits 2 0 cs0
  if h ≥ 24 then none else
  match cs1 with
  | ':' :: cs2 => do
    let (mi, cs3) ← readDigits 2 0 cs2
    if mi ≥ 60 then none else
    match cs3 with
    | ':' :: cs4 => do
      let (se, cs5) ← readDigits 2 0 cs4
      if se ≥ 60 then none else
      match cs5 with
      | '.' :: cs6 =>
        let ds := cs6.takeWhile (fun c => c.isDigit)
        let rest := cs6.dropWhile (fun c => c.isDigit)
        if ds.length = 0 ∨ ds.length > 6 then none
        else
          let v := ds.foldl (fun a c => a * 10 + (c.toNat - 48)) 0
          some (h, mi, se, v * 10 ^ (6 - ds.length), rest)
      | _ => some (h, mi, se, 0, cs5)
    | _ => some (h, mi, 0, 0, cs3)
  | _ => some (h, 0, 0, 0, cs1)

/-- Model of `datetime.fromisoformat`: accepts
`YYYY-MM-DD[{T| }HH[:MM[:SS[.ffffff]]][{+|-}HH:MM]]` with the same field
range validation as the Python function, producing a naive datetime when
no offset is present and an aware one when it is. -/
def parseIso (s : String) : Option PyDateTime := do
  let cs0 := s.toList
  let (y, cs1) ← readDigits 4 0 cs0
  let cs2 ← expectChar '-' cs1
  let (mo, cs3) ← readDigits 2 0 cs2
  let cs4 ← expectChar '-' cs3
  let (d, cs5) ← readDigits 2 0 cs4
  if y = 0 ∨ mo = 0 ∨ mo > 12 ∨ d = 0 ∨ d > daysInMonth y mo then none else
  match cs5 with
  | [] => some ⟨y, mo, d, 0, 0, 0, 0, none⟩
  | sep :: cs6 =>
    if sep ≠ 'T' ∧ sep ≠ ' ' then none else do
    let (h, mi, se, us, cs7) ← parseTimePart cs6
    match cs7 with
    | [] => some ⟨y, mo, d, h, mi, se, us, none⟩
    | sgn :: cs8 =>
      if sgn ≠ '+' ∧ sgn ≠ '-' then none else do
      let (oh, cs9) ← readDigits 2 0 cs8
      let cs10 ← expectChar ':' cs9
      let (om, cs11) ← readDigits 2 0 cs10
      if oh ≥ 24 ∨ om ≥ 60 then none else
      match cs11 with
      | [] =>
        let mins : Int := oh * 60 + om
        some ⟨y, mo, d, h, mi, se, us, some (if sgn = '-' then -mins else mins)⟩
      | _ => none

/-- The `.replace('Z', '+00:00')` preprocessing both scripts apply before
calling `fromisoformat`: every occurrence of the one-character pattern is
replaced. -/
def pyReplaceZ (s : String) : String :=
  String.mk (s.toList.foldr
    (fun c acc =>
      if c = 'Z' then '+' :: '0' :: '0' :: ':' :: '0' :: '0' :: acc
      else c :: acc) [])

/-- Day count of a civil date counted from 1970-01-01 (Gregorian,
proleptic); the standard days-from-civil algorithm underlying `datetime`
ordinal arithmetic. -/
def daysFromCivil (y0 : Int) (m : Nat) (d : Nat) : Int :=
  let y := if m ≤ 2 then y0 - 1 else y0
  let era := y.ediv 400
  let yoe := y - era * 400
  let mp : Int := if m > 2 then (m : Int) - 3 else (m : Int) + 9
  let doy := (153 * mp + 2).ediv 5 + d - 1
  let doe := yoe * 365 + yoe.ediv 4 - yoe.ediv 100 + doy
  era * 146097 + doe - 719468

/-- Inverse of `daysFromCivil`: the civil date of a day count from
1970-01-01. -/
def civilFromDays (z0 : Int) : Int × Nat × Nat :=
  let z := z0 + 719468
  let era := z.ediv 146097
  let doe := (z - era * 146097).toNat
  let yoe := (doe - doe / 1460 + doe / 36524 - doe / 146096) / 365
  let doy := doe - (365 * yoe + yoe / 4 - yoe / 100)
  let mp := (5 * doy + 2) / 153
  let d := doy - (153 * mp + 2) / 5 + 1
  let m := if mp < 10 then mp + 3 else mp - 9
  ((yoe : Int) + era * 400 + (if m ≤ 2 then 1 else 0), m, d)

/-- Instant key of a datetime in microseconds: for valid field ranges this
is a strictly monotone reading of the calendar fields, shifted by the UTC
offset for aware values. Python compares two naive or two aware datetimes
exactly by this key. -/
def pyKey (dt : PyDateTime) : Int :=
  ((daysFromCivil dt.year dt.month dt.day * 86400
      + dt.hour * 3600 + dt.minute * 60 + dt.second) * 1000000 + dt.usec)
    - (dt.tzMinutes.getD 0) * 60000000

/-- Model of Python `<` on datetimes: comparing a naive with an aware
value raises `TypeError` (modelled as `Except.error`); otherwise the
instant keys are compared. -/
def pyLtDt (a b : PyDateTime) : Except Unit Bool :=
  if a.tzMinutes.isSome = b.tzMinutes.isSome then
    Except.ok (decide (pyKey a < pyKey b))
  else Except.error ()

/-- Model of `datetime.fromtimestamp` with the local zone taken to be
UTC: a naive datetime read off the epoch second count. -/
def fromtimestampNaive (n : Int) : PyDateTime :=
  let days := n.fdiv 86400
  let rem := (n - days * 86400).toNat
  let c := civilFromDays days
  ⟨c.1, c.2.1, c.2.2, rem / 3600, rem % 3600 / 60, rem % 60, 0, none⟩

/-! ## delete_old_memos.py : data model and classifier -/

/-- A remote memo as consumed by `delete_old_memos.main`: the fields the
script reads, with `Option` for keys that may be absent from the JSON
object.  The create timestamp may be an ISO string (`createTime`) or a
Unix epoch number (`createdTs`). -/
structure OldMemo where
  name : Option String
  id : Option String
  content : String
  createTime : Option String
  createdTs : Option Int
deriving DecidableEq

/-- Value of the Python expression
`memo.get("createTime") or memo.get("createdTs")`: the string when it is
present and truthy (non-empty), otherwise the epoch number when present,
otherwise nothing. -/
inductive CTVal where
  | str (s : String)
  | int (n : Int)
  | missing
deriving DecidableEq

/-- Fallback to `createdTs` used when `createTime` is falsy. -/
def fallbackTs : Option Int → CTVal
  | some n => CTVal.int n
  | none => CTVal.missing

/-- The effective create-time value selected by
`memo.get("createTime") or memo.get("createdTs")`. -/
def effCreate (m : OldMemo) : CTVal :=
  match m.createTime with
  | some s => if s ≠ "" then CTVal.str s else fallbackTs m.createdTs
  | none => fallbackTs m.createdTs

/-- Classification outcome for one record. -/
inductive Action where
  | delete
  | skip
deriving DecidableEq

/-- Comparison step of the cutoff policy: `memo_dt < cutoff_dt` inside the
`try` block; a `TypeError` from comparing naive with aware is caught by
the surrounding `except` and resolves to skip. -/
def cmpStep (cutoff dt : PyDateTime) : Action :=
  match pyLtDt dt cutoff with
  | Except.error _ => Action.skip
  | Except.ok b => if b then Action.delete else Action.skip

/-- The per-record classification of `delete_old_memos.main` (lines
111-135): select the effective create time, skip when it is falsy, parse
it (ISO string via `fromisoformat` after the `Z` replacement, number via
`fromtimestamp`, whose out-of-range failure is also caught), and delete
exactly when the parsed datetime compares strictly below the cutoff; every
exception inside the `try` resolves to skip. -/
def classifyOld (cutoff : PyDateTime) (m : OldMemo) : Action :=
  match effCreate m with
  | CTVal.missing => Action.skip
  | CTVal.str s =>
      match parseIso (pyReplaceZ s) with
      | none => Action.skip
      | some dt => cmpStep cutoff dt
  | CTVal.int n =>
      if n = 0 then Action.skip
      else
        let dt := fromtimestampNaive n
        if dt.year < 1 ∨ dt.year > 9999 then Action.skip
        else cmpStep cutoff dt

/-- Parsing of the configured cutoff string, as done once at the start of
`main`. -/
def parseCutoff (s : String) : Option PyDateTime :=
  parseIso (pyReplaceZ s)

/-- The list of records planned for deletion (`memos_to_delete`), in fetch
order. -/
def buildOldPlan (cutoff : PyDateTime) (memos : List OldMemo) : List OldMemo :=
  memos.filter (fun m => classifyOld cutoff m = Action.delete)

/-- The timestamp produced by `fromtimestamp` is naive. -/
theorem fromtimestampNaive_tz (n : Int) : (fromtimestampNaive n).tzMinutes = none := rfl

/-- C3: under the date-cutoff policy, a record whose effective `createTime`
is a parseable ISO string that is comparable with the cutoff (both naive or
both aware) is classified `Delete` exactly when its instant is strictly
below the cutoff instant, and a record whose instant equals the cutoff is
classified `Skip`. -/
theorem classifyOld_strict_cutoff (cutoff dt : PyDateTime) (m : OldMemo) (s : String)
    (hs : effCreate m = CTVal.str s)
    (hp : parseIso (pyReplaceZ s) = some dt)
    (hcmp : dt.tzMinutes.isSome = cutoff.tzMinutes.isSome) :
    (classifyOld cutoff m = Action.delete ↔ pyKey dt < pyKey cutoff) ∧
    (pyKey dt = pyKey cutoff → classifyOld cutoff m = Action.skip) := by
  by_cases hlt : pyKey dt < pyKey cutoff
  · constructor
    · simp [classifyOld, hs, hp, cmpStep, pyLtDt, hcmp, hlt]
    · intro he; omega
  · constructor
    · simp [classifyOld, hs, hp, cmpStep, pyLtDt, hcmp, hlt]
    · intro _; simp [classifyOld, hs, hp, cmpStep, pyLtDt, hcmp, hlt]

/-- Concrete instantiation of `classifyOld_strict_cutoff`, with the
cutoff `2025-01-01T00:00:00Z`: a record one second earlier is deleted and
a record exactly at the cutoff is skipped. -/
theorem classifyOld_strict_cutoff_witness :
    classifyOld ⟨2025, 1, 1, 0, 0, 0, 0, some 0⟩
        ⟨some "memos/a", none, "x", some "2024-12-31T23:59:59Z", none⟩ = Action.delete ∧
    classifyOld ⟨2025, 1, 1, 0, 0, 0, 0, some 0⟩
        ⟨some "memos/b", none, "x", some "2025-01-01T00:00:00Z", none⟩ = Action.skip := by
  constructor
  · exact (classifyOld_strict_cutoff ⟨2025, 1, 1, 0, 0, 0, 0, some 0⟩
      ⟨2024, 12, 31, 23, 59, 59, 0, some 0⟩
      ⟨some "memos/a", none, "x", some "2024-12-31T23:59:59Z", none⟩
      "2024-12-31T23:59:59Z" rfl rfl rfl).1.mpr (by decide)
  · exact (classifyOld_strict_cutoff ⟨2025, 1, 1, 0, 0, 0, 0, some 0⟩
      ⟨2025, 1, 1, 0, 0, 0, 0, some 0⟩
      ⟨some "memos/b", none, "x", some "2025-01-01T00:00:00Z", none⟩
      "2025-01-01T00:00:00Z" rfl rfl rfl).2 (by decide)

/-- C4: under the date-cutoff policy a record whose create time is missing
(or falsy: the empty string, or epoch number 0) or whose ISO string does
not parse is classified `Skip`, for every cutoff. -/
theorem classifyOld_ambiguous_skip (cutoff : PyDateTime) (m : OldMemo)
    (h : effCreate m = CTVal.missing ∨ effCreate m = CTVal.int 0 ∨
         ∃ s, effCreate m = CTVal.str s ∧ parseIso (pyReplaceZ s) = none) :
    classifyOld cutoff m = Action.skip := by
  rcases h with h | h | ⟨s, hs, hp⟩
  · simp [classifyOld, h]
  · simp [classifyOld, h]
  · simp [classifyOld, hs, hp]

/-- Concrete instantiation of `classifyOld_ambiguous_skip`: a record with
no timestamp field at all, and one with an unparseable string, are both
skipped. -/
theorem classifyOld_ambiguous_skip_witness :
    classifyOld ⟨2025, 12, 26, 0, 0, 0, 0, some 0⟩
        ⟨some "memos/c", none, "x", none, none⟩ = Action.skip ∧
    classifyOld ⟨2025, 12, 26, 0, 0, 0, 0, some 0⟩
        ⟨some "memos/d", none, "x", some "not-a-date", none⟩ = Action.skip := by
  constructor
  · exact classifyOld_ambiguous_skip ⟨2025, 12, 26, 0, 0, 0, 0, some 0⟩
      ⟨some "memos/c", none, "x", none, none⟩ (Or.inl rfl)
  · exact classifyOld_ambiguous_skip ⟨2025, 12, 26, 0, 0, 0, 0, some 0⟩
      ⟨some "memos/d", none, "x", some "not-a-date", none⟩
      (Or.inr (Or.inr ⟨"not-a-date", rfl, by decide⟩))

/-- C10: when the configured cutoff string parses to an aware datetime
(as the default `...Z` cutoff does), every record whose effective create
time is a Unix epoch number is classified `Skip`: `fromtimestamp` yields a
naive datetime, the comparison with the aware cutoff raises, the exception
is caught and the record is skipped. -/
theorem classifyOld_epoch_aware_skip (cs : String) (cutoff : PyDateTime)
    (m : OldMemo) (n : Int)
    (_hps : parseCutoff cs = some cutoff)
    (hc : cutoff.tzMinutes.isSome = true)
    (hm : effCreate m = CTVal.int n) :
    classifyOld cutoff m = Action.skip := by
  have hd : cmpStep cutoff (fromtimestampNaive n) = Action.skip := by
    simp [cmpStep, pyLtDt, fromtimestampNaive_tz, hc]
  unfold classifyOld
  rw [hm]
  by_cases h0 : n = 0
  · simp [h0]
  · simp only [h0, if_false]
    split
    · rfl
    · exact hd

/-- Concrete instantiation of `classifyOld_epoch_aware_skip`: with the
default cutoff string `2025-12-26T00:00:00Z` a record carrying only the
epoch timestamp 1700000000 (2023-11-14, well before the cutoff) is still
skipped. -/
theorem classifyOld_epoch_aware_skip_witness :
    classifyOld ⟨2025, 12, 26, 0, 0, 0, 0, some 0⟩
        ⟨some "memos/e", none, "x", none, some 1700000000⟩ = Action.skip :=
  classifyOld_epoch_aware_skip "2025-12-26T00:00:00Z"
    ⟨2025, 12, 26, 0, 0, 0, 0, some 0⟩
    ⟨some "memos/e", none, "x", none, some 1700000000⟩ 1700000000 rfl rfl rfl

/-! ## delete_memos_duplicates.py : data model, grouping and plan -/

/-- A remote memo as consumed by `delete_memos_duplicates.py`; absent JSON
keys are read with the default `""` by the script, so both fields are
plain strings. -/
structure DMemo where
  name : String
  content : String
  createTime : String
deriving DecidableEq

/-- Zero-padded decimal rendering used to model `strftime`. -/
def padNum (w : Nat) (n : Nat) : String :=
  let s := toString n
  String.mk (List.replicate (w - s.length) '0') ++ s

/-- The `strftime('%Y-%m-%d')` rendering of a datetime's date part. -/
def fmtDate (dt : PyDateTime) : String :=
  padNum 4 dt.year.toNat ++ "-" ++ padNum 2 dt.month ++ "-" ++ padNum 2 dt.day

/-- `extract_date`: the calendar date of an ISO timestamp, or the sentinel
`"unknown"` when the string is empty or does not parse. -/
def extract_date (ts : String) : String :=
  if ts = "" then "unknown"
  else
    match parseIso (pyReplaceZ ts) with
    | some dt => fmtDate dt
    | none => "unknown"

/-- The composite key `md5(content) + "_" + date` of `find_duplicates`,
with the injective md5 digest modelled by the content itself. -/
def dupKey (m : DMemo) : String × String :=
  (m.content, extract_date m.createTime)

/-- Key list in order of first occurrence, mirroring Python dict insertion
order. -/
def firstDedup : List (String × String) → List (String × String)
  | [] => []
  | k :: ks => k :: (firstDedup ks).filter (fun k2 => k2 ≠ k)

/-- The keys of `content_date_groups` in insertion order: one key per
memo with non-empty content (`if content:` in the source). -/
def groupKeys (memos : List DMemo) : List (String × String) :=
  firstDedup ((memos.filter (fun m => m.content ≠ "")).map dupKey)

/-- The members of one group, in fetch order. -/
def groupOfKey (memos : List DMemo) (k : String × String) : List DMemo :=
  memos.filter (fun m => m.content ≠ "" ∧ dupKey m = k)

/-- The grouping built by `find_duplicates` before filtering. -/
def contentDateGroups (memos : List DMemo) : List (List DMemo) :=
  (groupKeys memos).map (groupOfKey memos)

/-- The value returned by `find_duplicates`: only the groups with more
than one member. -/
def duplicateGroups (memos : List DMemo) : List (List DMemo) :=
  (contentDateGroups memos).filter (fun g => g.length > 1)

/-- The sort key comparison `memo_list.sort(key=lambda x: x.get("createTime", ""))`
uses: string order on the raw timestamps. -/
def dmLe (a b : DMemo) : Prop :=
  a.createTime ≤ b.createTime

instance : DecidableRel dmLe :=
  fun a b => inferInstanceAs (Decidable (a.createTime ≤ b.createTime))

instance : IsTotal DMemo dmLe :=
  ⟨fun a b => le_total a.createTime b.createTime⟩

instance : IsTrans DMemo dmLe :=
  ⟨fun _ _ _ h1 h2 => le_trans h1 h2⟩

/-- The in-place stable sort of a duplicate group by `createTime`; any
stable sort agrees with Python `list.sort`, and `insertionSort` is
stable. -/
def sortGroup (g : List DMemo) : List DMemo :=
  g.insertionSort dmLe

/-- The memos actually deleted by `delete_duplicates`: for every
duplicate group, everything after the head of the sorted group. -/
def dupDeletePlan (memos : List DMemo) : List DMemo :=
  ((duplicateGroups memos).map (fun g => (sortGroup g).tail)).flatten

/-- First element attaining the minimal `createTime`, the characterization
of the kept memo. -/
def firstMinBy : List DMemo → Option DMemo
  | [] => none
  | m :: l =>
      match firstMinBy l with
      | none => some m
      | some k => if m.createTime ≤ k.createTime then some m else some k

theorem head_orderedInsert (m : DMemo) (l : List DMemo) :
    (l.orderedInsert dmLe m).head? =
      some (match l.head? with
            | none => m
            | some b => if m.createTime ≤ b.createTime then m else b) := by
  cases l with
  | nil => rfl
  | cons b t =>
    show (if dmLe m b then m :: b :: t else b :: t.orderedInsert dmLe m).head? = _
    by_cases h : dmLe m b
    · simp [h, dmLe] at *
      simp [h]
    · have h2 : ¬ m.createTime ≤ b.createTime := h
      simp [h, h2]

theorem firstMinBy_cons_none (m : DMemo) (t : List DMemo)
    (ht : firstMinBy t = none) : firstMinBy (m :: t) = some m := by
  rw [firstMinBy, ht]

theorem firstMinBy_cons_some (m : DMemo) (t : List DMemo) (k : DMemo)
    (ht : firstMinBy t = some k) :
    firstMinBy (m :: t) =
      if m.createTime ≤ k.createTime then some m else some k := by
  rw [firstMinBy, ht]

theorem firstMinBy_isSome (l : List DMemo) (h : l ≠ []) :
    (firstMinBy l).isSome := by
  cases l with
  | nil => exact absurd rfl h
  | cons m t =>
    cases ht : firstMinBy t with
    | none => rw [firstMinBy_cons_none m t ht]; rfl
    | some k =>
      rw [firstMinBy_cons_some m t k ht]
      by_cases hc : m.createTime ≤ k.createTime <;> simp [hc]

theorem head_sortGroup (l : List DMemo) :
    (sortGroup l).head? = firstMinBy l := by
  induction l with
  | nil => rfl
  | cons m t ih =>
    show ((sortGroup t).orderedInsert dmLe m).head? = firstMinBy (m :: t)
    rw [head_orderedInsert, ih]
    cases ht : firstMinBy t with
    | none => rw [firstMinBy_cons_none m t ht]
    | some k =>
      rw [firstMinBy_cons_some m t k ht]
      by_cases hc : m.createTime ≤ k.createTime <;> simp [hc]

theorem firstMinBy_min (l : List DMemo) (k : DMemo) (hk : firstMinBy l = some k) :
    ∀ m ∈ l, k.createTime ≤ m.createTime := by
  induction l generalizing k with
  | nil => simp [firstMinBy] at hk
  | cons m t ih =>
    cases ht : firstMinBy t with
    | none =>
      rw [firstMinBy_cons_none m t ht] at hk
      simp only [Option.some.injEq] at hk
      subst hk
      cases t with
      | nil => simp
      | cons a r =>
        have hs := firstMinBy_isSome (a :: r) (by simp)
        rw [ht] at hs
        simp at hs
    | some k2 =>
      rw [firstMinBy_cons_some m t k2 ht] at hk
      by_cases hc : m.createTime ≤ k2.createTime
      · rw [if_pos hc] at hk
        simp only [Option.some.injEq] at hk
        subst hk
        intro x hx
        rcases List.mem_cons.mp hx with h | h
        · subst h; exact le_refl _
        · exact le_trans hc (ih k2 ht x h)
      · rw [if_neg hc] at hk
        simp only [Option.some.injEq] at hk
        subst hk
        intro x hx
        rcases List.mem_cons.mp hx with h | h
        · subst h; exact le_of_not_le hc
        · exact ih k2 ht x h

theorem firstMinBy_decomp (l : List DMemo) (k : DMemo) (hk : firstMinBy l = some k) :
    ∃ pre post, l = pre ++ k :: post ∧ ∀ m ∈ pre, k.createTime < m.createTime := by
  induction l generalizing k with
  | nil => simp [firstMinBy] at hk
  | cons m t ih =>
    cases ht : firstMinBy t with
    | none =>
      rw [firstMinBy_cons_none m t ht] at hk
      simp only [Option.some.injEq] at hk
      subst hk
      exact ⟨[], t, rfl, by simp⟩
    | some k2 =>
      rw [firstMinBy_cons_some m t k2 ht] at hk
      by_cases hc : m.createTime ≤ k2.createTime
      · rw [if_pos hc] at hk
        simp only [Option.some.injEq] at hk
        subst hk
        exact ⟨[], t, rfl, by simp⟩
      · rw [if_neg hc] at hk
        simp only [Option.some.injEq] at hk
        subst hk
        obtain ⟨pre, post, hsplit, hlt⟩ := ih k2 ht
        refine ⟨m :: pre, post, by rw [hsplit]; rfl, ?_⟩
        intro x hx
        rcases List.mem_cons.mp hx with h | h
        · subst h; exact lt_of_not_le hc
        · exact hlt x h

theorem sortGroup_perm (g : List DMemo) : List.Perm (sortGroup g) g :=
  List.perm_insertionSort dmLe g

/-- C2 (amended to memos with non-empty content): every group returned by
`find_duplicates` has at least two members; the memo kept by
`delete_duplicates` is the one with the minimal `createTime` string, ties
broken by fetch order (no strictly-earlier-or-equal memo precedes it in
the group), and every other member of the group is planned for deletion;
a memo whose composite key is carried by at most one fetched memo is never
planned for deletion. -/
theorem find_duplicates_policy (memos g : List DMemo)
    (hg : g ∈ duplicateGroups memos) :
    2 ≤ g.length ∧
    (∃ kept rest, sortGroup g = kept :: rest ∧
      List.Perm (kept :: rest) g ∧
      (∀ m ∈ g, kept.createTime ≤ m.createTime) ∧
      (∃ pre post, g = pre ++ kept :: post ∧
        ∀ m ∈ pre, kept.createTime < m.createTime) ∧
      (∀ m ∈ rest, m ∈ dupDeletePlan memos)) ∧
    (∀ m ∈ memos,
      (groupOfKey memos (dupKey m)).length ≤ 1 → m ∉ dupDeletePlan memos) := by
  have hmem := hg
  rw [duplicateGroups, List.mem_filter] at hmem
  obtain ⟨hcg, hlenb⟩ := hmem
  have hlen : 1 < g.length := by simpa using hlenb
  refine ⟨hlen, ?_, ?_⟩
  · have hne : g ≠ [] := by
      intro h; rw [h] at hlen; simp at hlen
    obtain ⟨kept, hk⟩ := Option.isSome_iff_exists.mp (firstMinBy_isSome g hne)
    have hhead : (sortGroup g).head? = some kept := by rw [head_sortGroup, hk]
    cases hs : sortGroup g with
    | nil => rw [hs] at hhead; simp at hhead
    | cons a rest =>
      rw [hs] at hhead
      simp only [List.head?_cons, Option.some.injEq] at hhead
      rw [← hhead] at hk
      refine ⟨a, rest, rfl, ?_, ?_, ?_, ?_⟩
      · rw [← hs]; exact sortGroup_perm g
      · exact firstMinBy_min g a hk
      · exact firstMinBy_decomp g a hk
      · intro m hm
        rw [dupDeletePlan, List.mem_flatten]
        refine ⟨(sortGroup g).tail, List.mem_map.mpr ⟨g, hg, rfl⟩, ?_⟩
        rw [hs]
        simpa using hm
  · intro m hm hle hmemPlan
    rw [dupDeletePlan, List.mem_flatten] at hmemPlan
    obtain ⟨l, hl, hml⟩ := hmemPlan
    obtain ⟨g2, hg2, rfl⟩ := List.mem_map.mp hl
    have hmg2 : m ∈ g2 :=
      (sortGroup_perm g2).mem_iff.mp (List.mem_of_mem_tail hml)
    have hg2f := hg2
    rw [duplicateGroups, List.mem_filter] at hg2f
    obtain ⟨hcg2, hlen2b⟩ := hg2f
    have hlen2 : 1 < g2.length := by simpa using hlen2b
    rw [contentDateGroups] at hcg2
    obtain ⟨k2, _hk2, rfl⟩ := List.mem_map.mp hcg2
    have hmf := hmg2
    rw [groupOfKey, List.mem_filter] at hmf
    have hkey : dupKey m = k2 := (of_decide_eq_true hmf.2).2
    rw [← hkey] at hlen2
    omega

/-- Sample fetch of the specification scenario: two memos with content
`"hi"` on 2024-01-01 and one with content `"bye"`. -/
def memosC2 : List DMemo :=
  [⟨"memos/a", "hi", "2024-01-01T10:00:00Z"⟩,
   ⟨"memos/b", "hi", "2024-01-01T12:00:00Z"⟩,
   ⟨"memos/c", "bye", "2024-01-01T09:00:00Z"⟩]

/-- The single duplicate group of `memosC2`. -/
def gC2 : List DMemo :=
  [⟨"memos/a", "hi", "2024-01-01T10:00:00Z"⟩,
   ⟨"memos/b", "hi", "2024-01-01T12:00:00Z"⟩]

/-- Concrete instantiation of `find_duplicates_policy` on the
specification scenario records. -/
theorem find_duplicates_policy_witness :
    2 ≤ gC2.length ∧
    (∃ kept rest, sortGroup gC2 = kept :: rest ∧
      List.Perm (kept :: rest) gC2 ∧
      (∀ m ∈ gC2, kept.createTime ≤ m.createTime) ∧
      (∃ pre post, gC2 = pre ++ kept :: post ∧
        ∀ m ∈ pre, kept.createTime < m.createTime) ∧
      (∀ m ∈ rest, m ∈ dupDeletePlan memosC2)) ∧
    (∀ m ∈ memosC2,
      (groupOfKey memosC2 (dupKey m)).length ≤ 1 →
        m ∉ dupDeletePlan memosC2) :=
  find_duplicates_policy memosC2 gC2 (by decide)

/-- First of two equal-key memos with empty content. -/
def mE1 : DMemo := ⟨"memos/e1", "", "2024-01-01T10:00:00Z"⟩

/-- Second of two equal-key memos with empty content. -/
def mE2 : DMemo := ⟨"memos/e2", "", "2024-01-01T11:00:00Z"⟩

/-- Counterexample to C2 as stated: two distinct memos with empty content
share the derived key (equal content and equal calendar date), yet
`find_duplicates` produces no group and nothing is planned for deletion,
because the source guards grouping with `if content:`. -/
theorem find_duplicates_policy_cex :
    dupKey mE1 = dupKey mE2 ∧
    mE1 ≠ mE2 ∧
    duplicateGroups [mE1, mE2] = [] ∧
    dupDeletePlan [mE1, mE2] = [] :=
  ⟨by decide, by decide, by decide, by decide⟩

/-! ## Action executors: requests issued against the remote service -/

/-- A request to the remote notes service; only `get` is non-mutating. -/
inductive Req where
  | get
  | delete (target : String)
  | create (content : String)
  | patch (target : String) (ts : String)
  | attach (target : String)
deriving DecidableEq

/-- Whether a request mutates remote state. -/
def Req.isMutating : Req → Bool
  | Req.get => false
  | _ => true

/-- Whether a request is a deletion. -/
def Req.isDelete : Req → Bool
  | Req.delete _ => true
  | _ => false

/-- Rendering of a possibly absent id inside a Python f-string (`None`
renders as the text `"None"`). -/
def pyStrOptId : Option String → String
  | some s => s
  | none => "None"

/-- URL path used by `delete_memo`: the resource name when truthy,
otherwise the id-based endpoint. -/
def deleteTarget (m : OldMemo) : String :=
  match m.name with
  | some s => if s ≠ "" then "api/v1/" ++ s else "api/v1/memos/" ++ pyStrOptId m.id
  | none => "api/v1/memos/" ++ pyStrOptId m.id

/-- The deletion loop of `delete_old_memos.main` (lines 156-170): in dry
run only the counter moves; live mode issues one delete request per
planned memo, counting successes and failures as reported by the remote
(`remoteOk`). Returns issued requests, `deleted_count` and
`failed_count`. -/
def runOldDeletes (dryRun : Bool) (remoteOk : String → Bool) : List OldMemo → List Req × Nat × Nat
  | [] => ([], 0, 0)
  | m :: rest =>
      let r := runOldDeletes dryRun remoteOk rest
      if dryRun then (r.1, r.2.1 + 1, r.2.2)
      else
        let t := deleteTarget m
        if remoteOk t then (Req.delete t :: r.1, r.2.1 + 1, r.2.2)
        else (Req.delete t :: r.1, r.2.1, r.2.2 + 1)

/-- The whole execution stage of `delete_old_memos.main`, with the
standard input stream passed explicitly: the script reads nothing from it
(there is no confirmation prompt in this script), so the parameter is
unused. -/
def oldMainExec (dryRun : Bool) (_stdin : List String) (remoteOk : String → Bool)
    (plan : List OldMemo) : List Req × Nat × Nat :=
  runOldDeletes dryRun remoteOk plan

/-- Model of `str.lower()` for the confirmation answer. -/
def pyLower (s : String) : String :=
  String.mk (s.toList.map Char.toLower)

/-- Per-group deletion loop of `delete_duplicates`, applied to the
members after the kept head. -/
def runDupGroup (dryRun : Bool) (remoteOk : String → Bool) : List DMemo → List Req × Nat × Nat
  | [] => ([], 0, 0)
  | m :: rest =>
      let r := runDupGroup dryRun remoteOk rest
      if dryRun then (r.1, r.2.1 + 1, r.2.2)
      else
        let t := "api/v1/" ++ m.name
        if remoteOk t then (Req.delete t :: r.1, r.2.1 + 1, r.2.2)
        else (Req.delete t :: r.1, r.2.1, r.2.2 + 1)

/-- Loop of `delete_duplicates` over the duplicate groups: each group is
sorted by `createTime`, its head kept, and the rest processed. -/
def runDupGroups (dryRun : Bool) (remoteOk : String → Bool) : List (List DMemo) → List Req × Nat × Nat
  | [] => ([], 0, 0)
  | g :: rest =>
      let a := runDupGroup dryRun remoteOk ((sortGroup g).tail)
      let b := runDupGroups dryRun remoteOk rest
      (a.1 ++ b.1, a.2.1 + b.2.1, a.2.2 + b.2.2)

/-- The executor `delete_duplicates` (lines 163-237): returns immediately
on an empty duplicate map; in live mode, asks for confirmation first and
returns with nothing issued unless the lowercased answer is exactly
`"yes"`; then runs the deletion loops. -/
def delete_duplicates (dryRun : Bool) (confirm : String) (remoteOk : String → Bool)
    (dups : List (List DMemo)) : List Req × Nat × Nat :=
  if dups = [] then ([], 0, 0)
  else if dryRun = false ∧ pyLower confirm ≠ "yes" then ([], 0, 0)
  else runDupGroups dryRun remoteOk dups

theorem runOldDeletes_live_reqs (remoteOk : String → Bool) (plan : List OldMemo) :
    (runOldDeletes false remoteOk plan).1 =
      plan.map (fun m => Req.delete (deleteTarget m)) := by
  induction plan with
  | nil => rfl
  | cons m rest ih =>
    by_cases h : remoteOk (deleteTarget m) <;>
      simp [runOldDeletes, h, ih]

/-- C1 (amended): in the duplicate-cleaner script a live run whose plan
is non-empty issues no request at all when the interactive confirmation
is withheld or is anything other than `"yes"`; the old-memos purge script,
however, issues its planned delete requests in live mode without reading
any confirmation from its input. -/
theorem live_confirmation_gate (dups : List (List DMemo)) (confirm : String)
    (remoteOk : String → Bool) (stdin : List String) (remoteOk2 : String → Bool)
    (plan : List OldMemo)
    (hno : pyLower confirm ≠ "yes") :
    delete_duplicates false confirm remoteOk dups = ([], 0, 0) ∧
    (oldMainExec false stdin remoteOk2 plan).1 =
      plan.map (fun m => Req.delete (deleteTarget m)) := by
  constructor
  · by_cases hd : dups = []
    · simp [delete_duplicates, hd]
    · simp [delete_duplicates, hd, hno]
  · exact runOldDeletes_live_reqs remoteOk2 plan

/-- Planned record used to exercise the old-memos purge executor. -/
def mOldCex : OldMemo := ⟨some "memos/x", none, "c", some "2020-01-01T00:00:00Z", none⟩

/-- Concrete instantiation of `live_confirmation_gate`: answering `"no"`
leaves the duplicate cleaner with zero requests, while the old-memos
purge issues its delete with an empty input stream. -/
theorem live_confirmation_gate_witness :
    delete_duplicates false "no" (fun _ => true) [[mE1, mE2]] = ([], 0, 0) ∧
    (oldMainExec false [] (fun _ => true) [mOldCex]).1 =
      [mOldCex].map (fun m => Req.delete (deleteTarget m)) :=
  live_confirmation_gate [[mE1, mE2]] "no" (fun _ => true) [] (fun _ => true)
    [mOldCex] (by decide)

/-- Counterexample to C1 as stated: a live run of the old-memos purge
with one planned deletion and an empty input stream (confirmation
withheld) still issues a mutating delete request. -/
theorem live_confirmation_gate_cex :
    (oldMainExec false [] (fun _ => true) [mOldCex]).1 =
      [Req.delete "api/v1/memos/x"] ∧
    Req.isMutating (Req.delete "api/v1/memos/x") = true :=
  ⟨rfl, rfl⟩

theorem runOldDeletes_dry (remoteOk : String → Bool) (plan : List OldMemo) :
    runOldDeletes true remoteOk plan = ([], plan.length, 0) := by
  induction plan with
  | nil => rfl
  | cons m rest ih => simp [runOldDeletes, ih]

theorem runDupGroup_dry (remoteOk : String → Bool) (l : List DMemo) :
    runDupGroup true remoteOk l = ([], l.length, 0) := by
  induction l with
  | nil => rfl
  | cons m rest ih => simp [runDupGroup, ih]

theorem runDupGroups_dry (remoteOk : String → Bool) (dups : List (List DMemo)) :
    runDupGroups true remoteOk dups =
      ([], (dups.map (fun g => g.length - 1)).sum, 0) := by
  induction dups with
  | nil => rfl
  | cons g rest ih =>
    simp [runDupGroups, runDupGroup_dry, ih, List.length_tail, sortGroup,
      List.length_insertionSort]

theorem dupDeletePlan_length (memos : List DMemo) :
    (dupDeletePlan memos).length =
      ((duplicateGroups memos).map (fun g => g.length - 1)).sum := by
  rw [dupDeletePlan, List.length_flatten, List.map_map]
  have h : ((fun l : List DMemo => l.length) ∘ fun g => (sortGroup g).tail)
      = (fun g : List DMemo => g.length - 1) := by
    funext g
    simp [Function.comp, List.length_tail, sortGroup, List.length_insertionSort]
  rw [h]

/-- C5: with the dry-run flag set, neither script's executor issues any
request (mutating or otherwise), and the reported "would delete" count
equals the number of planned deletions: for the duplicate cleaner the sum
of the group sizes minus one — which equals the length of the deletion
plan — and for the old-memos purge the length of `memos_to_delete`. -/
theorem dry_run_frame (dups : List (List DMemo)) (confirm : String)
    (remoteOk remoteOk2 : String → Bool) (plan : List OldMemo)
    (memos : List DMemo) (stdin : List String) :
    (delete_duplicates true confirm remoteOk dups).1 = [] ∧
    (delete_duplicates true confirm remoteOk dups).2.1 =
      (dups.map (fun g => g.length - 1)).sum ∧
    (delete_duplicates true confirm remoteOk (duplicateGroups memos)).2.1 =
      (dupDeletePlan memos).length ∧
    (oldMainExec true stdin remoteOk2 plan).1 = [] ∧
    (oldMainExec true stdin remoteOk2 plan).2.1 = plan.length := by
  refine ⟨?_, ?_, ?_, ?_, ?_⟩
  · by_cases hd : dups = [] <;> simp [delete_duplicates, hd, runDupGroups_dry]
  · by_cases hd : dups = [] <;> simp [delete_duplicates, hd, runDupGroups_dry]
  · by_cases hd : duplicateGroups memos = []
    · simp [delete_duplicates, hd, dupDeletePlan, runDupGroups_dry]
    · rw [dupDeletePlan_length]
      simp [delete_duplicates, hd, runDupGroups_dry]
  · simp [oldMainExec, runOldDeletes_dry]
  · simp [oldMainExec, runOldDeletes_dry]

/-! ## Paginated fetchers -/

/-- Remote answer to one page request: a successful page with its records
and optional continuation token, an HTTP error status, or a network-level
exception. -/
inductive PageResp (α : Type) where
  | ok (memos : List α) (tok : Option String)
  | httpErr (status : Nat)
  | netErr
deriving DecidableEq

/-- Pagination loop of `fetch_all_memos` in the duplicate cleaner: an
HTTP 400 breaks the loop and every other HTTP error re-raises into the
outer handler, which returns whatever was gathered (also when nothing
was); a network exception does the same; a page with no records or no
continuation token ends the loop. Returns the gathered records and the
number of page requests issued. -/
def fetchAllMemosGo : List (PageResp DMemo) → List DMemo → List DMemo × Nat
  | [], acc => (acc, 0)
  | PageResp.httpErr _ :: _, acc => (acc, 1)
  | PageResp.netErr :: _, acc => (acc, 1)
  | PageResp.ok ms tok :: rest, acc =>
      if ms.isEmpty then (acc, 1)
      else
        match tok with
        | none => (acc ++ ms, 1)
        | some _ =>
            let r := fetchAllMemosGo rest (acc ++ ms)
            (r.1, r.2 + 1)

/-- The fetch of the duplicate cleaner applied to a response stream. -/
def fetch_all_memos (resps : List (PageResp DMemo)) : List DMemo × Nat :=
  fetchAllMemosGo resps []

/-- Pagination loop of `get_all_memos` in the old-memos purge: any
non-200 status and any exception break the loop, which then returns the
gathered records; a missing continuation token ends it normally. -/
def getAllMemosGo : List (PageResp OldMemo) → List OldMemo → List OldMemo × Nat
  | [], acc => (acc, 0)
  | PageResp.httpErr _ :: _, acc => (acc, 1)
  | PageResp.netErr :: _, acc => (acc, 1)
  | PageResp.ok ms tok :: rest, acc =>
      match tok with
      | none => (acc ++ ms, 1)
      | some _ =>
          let r := getAllMemosGo rest (acc ++ ms)
          (r.1, r.2 + 1)

/-- The fetch of the old-memos purge applied to a response stream. -/
def get_all_memos (resps : List (PageResp OldMemo)) : List OldMemo × Nat :=
  getAllMemosGo resps []

/-- Fetch-then-classify stage of the duplicate cleaner's `main`: when the
fetch yields nothing the run stops, otherwise `find_duplicates` runs on
the fetched snapshot. -/
def mainDuplicates (resps : List (PageResp DMemo)) : Option (List (List DMemo)) :=
  let ms := (fetch_all_memos resps).1
  if ms = [] then none else some (duplicateGroups ms)

/-- Fetch-then-classify stage of the old-memos purge's `main`: parse the
cutoff (an unparseable cutoff aborts before fetching), fetch, stop on an
empty snapshot, otherwise build `memos_to_delete`. -/
def mainOldClassify (cutoffStr : String) (resps : List (PageResp OldMemo)) :
    Option (List OldMemo) :=
  match parseCutoff cutoffStr with
  | none => none
  | some cutoff =>
      let ms := (get_all_memos resps).1
      if ms = [] then none else some (buildOldPlan cutoff ms)

theorem fetchAllMemosGo_goodPages (pages : List (List DMemo × String))
    (hne : ∀ p ∈ pages, p.1 ≠ []) (acc : List DMemo)
    (tail : List (PageResp DMemo)) :
    fetchAllMemosGo ((pages.map (fun p => PageResp.ok p.1 (some p.2))) ++ tail) acc =
      ((fetchAllMemosGo tail (acc ++ (pages.map Prod.fst).flatten)).1,
       (fetchAllMemosGo tail (acc ++ (pages.map Prod.fst).flatten)).2 + pages.length) := by
  induction pages generalizing acc with
  | nil => simp
  | cons p ps ih =>
    have hp1 : p.1.isEmpty = false := by
      cases hc : p.1 with
      | nil => exact absurd hc (hne p (by simp))
      | cons a l => rfl
    simp only [List.map_cons, List.cons_append, fetchAllMemosGo, hp1,
      Bool.false_eq_true, if_false, List.append_eq]
    rw [ih (fun q hq => hne q (by simp [hq]))]
    simp [List.append_assoc]
    omega

theorem getAllMemosGo_goodPages (pages : List (List OldMemo × String))
    (acc : List OldMemo) (tail : List (PageResp OldMemo)) :
    getAllMemosGo ((pages.map (fun p => PageResp.ok p.1 (some p.2))) ++ tail) acc =
      ((getAllMemosGo tail (acc ++ (pages.map Prod.fst).flatten)).1,
       (getAllMemosGo tail (acc ++ (pages.map Prod.fst).flatten)).2 + pages.length) := by
  induction pages generalizing acc with
  | nil => simp
  | cons p ps ih =>
    simp only [List.map_cons, List.cons_append, getAllMemosGo, List.append_eq]
    rw [ih]
    simp [List.append_assoc]
    omega

/-- C6: in both scripts, when page N+1 of a pagination answers with an
HTTP error (any status; in particular the whole 400 class), the fetch
ends and returns exactly the records gathered from the N earlier pages
instead of aborting, and exactly one request was issued per page with no
retry of the failing page. -/
theorem fetch_http_error_ends_stream
    (pages : List (List DMemo × String)) (opages : List (List OldMemo × String))
    (s s2 : Nat) (rest : List (PageResp DMemo)) (rest2 : List (PageResp OldMemo))
    (hne : ∀ p ∈ pages, p.1 ≠ []) :
    fetch_all_memos
        ((pages.map (fun p => PageResp.ok p.1 (some p.2))) ++ PageResp.httpErr s :: rest)
      = ((pages.map Prod.fst).flatten, pages.length + 1) ∧
    get_all_memos
        ((opages.map (fun p => PageResp.ok p.1 (some p.2))) ++ PageResp.httpErr s2 :: rest2)
      = ((opages.map Prod.fst).flatten, opages.length + 1) := by
  constructor
  · rw [fetch_all_memos, fetchAllMemosGo_goodPages pages hne]
    simp [fetchAllMemosGo]
    omega
  · rw [get_all_memos, getAllMemosGo_goodPages]
    simp [getAllMemosGo]
    omega

/-- Concrete instantiation of `fetch_http_error_ends_stream`: one good
page followed by a 400 answer yields that page's records after two
requests, in both scripts. -/
theorem fetch_http_error_ends_stream_witness :
    fetch_all_memos
        [PageResp.ok [mE1] (some "t1"), PageResp.httpErr 400]
      = ([mE1], 2) ∧
    get_all_memos
        [PageResp.ok [mOldCex] (some "t1"), PageResp.httpErr 404]
      = ([mOldCex], 2) := by
  have h := fetch_http_error_ends_stream [([mE1], "t1")] [([mOldCex], "t1")]
    400 404 [] [] (by simp [mE1])
  simpa using h

/-- C7: a network-level exception at page N+1 leaves the records of the
N already-fetched pages as the fetch result in both scripts, and the
classification stage runs on that partial snapshot whenever it is
non-empty. -/
theorem fetch_net_error_keeps_fetched
    (pages : List (List DMemo × String)) (opages : List (List OldMemo × String))
    (rest : List (PageResp DMemo)) (rest2 : List (PageResp OldMemo))
    (cutoffStr : String) (cutoff : PyDateTime)
    (hne : ∀ p ∈ pages, p.1 ≠ [])
    (hp : (pages.map Prod.fst).flatten ≠ [])
    (hc : parseCutoff cutoffStr = some cutoff)
    (ho : (opages.map Prod.fst).flatten ≠ []) :
    (fetch_all_memos
        ((pages.map (fun p => PageResp.ok p.1 (some p.2))) ++ PageResp.netErr :: rest)).1
      = (pages.map Prod.fst).flatten ∧
    mainDuplicates
        ((pages.map (fun p => PageResp.ok p.1 (some p.2))) ++ PageResp.netErr :: rest)
      = some (duplicateGroups ((pages.map Prod.fst).flatten)) ∧
    (get_all_memos
        ((opages.map (fun p => PageResp.ok p.1 (some p.2))) ++ PageResp.netErr :: rest2)).1
      = (opages.map Prod.fst).flatten ∧
    mainOldClassify cutoffStr
        ((opages.map (fun p => PageResp.ok p.1 (some p.2))) ++ PageResp.netErr :: rest2)
      = some (buildOldPlan cutoff ((opages.map Prod.fst).flatten)) := by
  have h1 : (fetch_all_memos
      ((pages.map (fun p => PageResp.ok p.1 (some p.2))) ++ PageResp.netErr :: rest)).1
      = (pages.map Prod.fst).flatten := by
    rw [fetch_all_memos, fetchAllMemosGo_goodPages pages hne]
    simp [fetchAllMemosGo]
  have h2 : (get_all_memos
      ((opages.map (fun p => PageResp.ok p.1 (some p.2))) ++ PageResp.netErr :: rest2)).1
      = (opages.map Prod.fst).flatten := by
    rw [get_all_memos, getAllMemosGo_goodPages]
    simp [getAllMemosGo]
  refine ⟨h1, ?_, h2, ?_⟩
  · rw [mainDuplicates]
    simp only [h1]
    rw [if_neg hp]
  · rw [mainOldClassify, hc]
    simp only [h2]
    rw [if_neg ho]

/-- Concrete instantiation of `fetch_net_error_keeps_fetched`: one good page,
then a network failure; both classifiers run on the single-page
snapshot. -/
theorem fetch_net_error_keeps_fetched_witness :
    (fetch_all_memos [PageResp.ok [mE1] (some "t1"), PageResp.netErr]).1 = [mE1] ∧
    mainDuplicates [PageResp.ok [mE1] (some "t1"), PageResp.netErr]
      = some (duplicateGroups [mE1]) ∧
    (get_all_memos [PageResp.ok [mOldCex] (some "t1"), PageResp.netErr]).1 = [mOldCex] ∧
    mainOldClassify "2025-12-26T00:00:00Z"
        [PageResp.ok [mOldCex] (some "t1"), PageResp.netErr]
      = some (buildOldPlan ⟨2025, 12, 26, 0, 0, 0, 0, some 0⟩ [mOldCex]) := by
  have h := fetch_net_error_keeps_fetched [([mE1], "t1")] [([mOldCex], "t1")] [] []
    "2025-12-26T00:00:00Z" ⟨2025, 12, 26, 0, 0, 0, 0, some 0⟩
    (by simp [mE1]) (by simp [mE1]) rfl (by simp [mOldCex])
  simpa using h

/-! ## x_scraper_fast_scrolling.py : ingestion and dedup -/

/-- Python truthiness of an optional string (`if timestamp:`). -/
def pyTruthyOpt : Option String → Bool
  | some s => s ≠ ""
  | none => false

/-- Remote outcomes relevant to one `create_memo` call: the name returned
by a successful creation (or `none` when the POST raises), the status of
the backdating PATCH, the per-image download outcomes, and whether the
external video fetch produced a file. -/
structure CreateBehavior where
  createName : Option String
  patchStatus : Nat
  imgDl : List Bool
  vidOk : Bool
deriving DecidableEq

/-- The ingestion executor `create_memo` (lines 140-192): POST the new
record; on success, when a truthy timestamp was supplied, PATCH its
`createTime` (a non-200 answer is only reported, never rolled back); then
upload the attachments whose external fetch succeeded. Returns the
requests issued to the notes service and whether a backdate failure was
reported. -/
def create_memo (text : String) (timestamp : Option String) (images : List String)
    (videoUrl : Option String) (beh : CreateBehavior) : List Req × Bool :=
  match beh.createName with
  | none => ([Req.create text], false)
  | some nm =>
      let patchReqs : List Req :=
        if pyTruthyOpt timestamp then [Req.patch nm (timestamp.getD "")] else []
      let reported : Bool :=
        if pyTruthyOpt timestamp then decide (beh.patchStatus ≠ 200) else false
      let imgReqs : List Req :=
        ((images.zip beh.imgDl).filter (fun p => p.2)).map (fun _ => Req.attach nm)
      let vidReqs : List Req :=
        match videoUrl with
        | some _ => if beh.vidOk then [Req.attach nm] else []
        | none => []
      (Req.create text :: (patchReqs ++ (imgReqs ++ vidReqs)), reported)

/-- C8: when a historical timestamp is supplied and the creation
succeeds, the request stream starts with the creation immediately
followed by the separate backdating update, everything after them is an
attachment upload, no delete request ever appears (no rollback), and a
failing backdate is reported. -/
theorem create_then_backdate (text t : String) (images : List String)
    (videoUrl : Option String) (beh : CreateBehavior) (nm : String)
    (hn : beh.createName = some nm) (ht : t ≠ "") :
    (∃ attachReqs, (create_memo text (some t) images videoUrl beh).1 =
        Req.create text :: Req.patch nm t :: attachReqs ∧
        ∀ r ∈ attachReqs, r = Req.attach nm) ∧
    (∀ r ∈ (create_memo text (some t) images videoUrl beh).1, r.isDelete = false) ∧
    (beh.patchStatus ≠ 200 → (create_memo text (some t) images videoUrl beh).2 = true) := by
  have htr : pyTruthyOpt (some t) = true := by simp [pyTruthyOpt, ht]
  refine ⟨?_, ?_, ?_⟩
  · refine ⟨(((images.zip beh.imgDl).filter (fun p => p.2)).map (fun _ => Req.attach nm))
      ++ (match videoUrl with
          | some _ => if beh.vidOk then [Req.attach nm] else []
          | none => []), ?_, ?_⟩
    · simp [create_memo, hn, htr]
    · intro r hr
      rcases List.mem_append.mp hr with h | h
      · obtain ⟨a, _, rfl⟩ := List.mem_map.mp h
        rfl
      · cases videoUrl with
        | none => simp at h
        | some u =>
          by_cases hv : beh.vidOk <;> simp [hv] at h
          exact h
  · intro r hr
    simp only [create_memo, hn, htr, if_true] at hr
    rcases List.mem_cons.mp hr with h | h
    · subst h; rfl
    rcases List.mem_append.mp h with h | h
    · simp at h
      subst h; rfl
    rcases List.mem_append.mp h with h | h
    · obtain ⟨a, _, rfl⟩ := List.mem_map.mp h
      rfl
    · cases videoUrl with
      | none => simp at h
      | some u =>
        by_cases hv : beh.vidOk <;> simp [hv] at h
        subst h; rfl
  · intro hfail
    simp [create_memo, hn, htr, hfail]

/-- Concrete instantiation of `create_then_backdate`: creation succeeds
as `memos/z`, the backdate answers 500 and is reported, one image
attachment follows, and no delete appears. -/
theorem create_then_backdate_witness :
    (∃ attachReqs, (create_memo "hello" (some "2024-01-01T00:00:00.000Z") ["u1"] none
        ⟨some "memos/z", 500, [true], false⟩).1 =
        Req.create "hello" :: Req.patch "memos/z" "2024-01-01T00:00:00.000Z" :: attachReqs ∧
        ∀ r ∈ attachReqs, r = Req.attach "memos/z") ∧
    (∀ r ∈ (create_memo "hello" (some "2024-01-01T00:00:00.000Z") ["u1"] none
        ⟨some "memos/z", 500, [true], false⟩).1, r.isDelete = false) ∧
    (create_memo "hello" (some "2024-01-01T00:00:00.000Z") ["u1"] none
        ⟨some "memos/z", 500, [true], false⟩).2 = true := by
  have h := create_then_backdate "hello" "2024-01-01T00:00:00.000Z" ["u1"] none
    ⟨some "memos/z", 500, [true], false⟩ "memos/z" rfl (by decide)
  exact ⟨h.1, h.2.1, h.2.2 (by decide)⟩

/-- A tweet as read from the page: the `tweetText` element contents, the
`datetime` attribute when present, the media image sources, and the tweet
URL when a video element was found. -/
structure Tweet where
  rawTexts : List String
  timestamp : Option String
  images : List String
  videoUrl : Option String
deriving DecidableEq

/-- The text assembled from the truthy `tweetText` elements: none when
there is none, the single text, or the first two joined with the
repost separator. -/
def combinedText (t : Tweet) : Option String :=
  match t.rawTexts.filter (fun s => s ≠ "") with
  | [] => none
  | [x] => some x
  | x :: y :: _ => some (x ++ "\n\n---\n\n" ++ y)

/-- Rendering of the timestamp inside the signature f-string (`None` when
absent). -/
def pyStrOfOptTs : Option String → String
  | some s => s
  | none => "None"

/-- Rendering of a bool inside an f-string. -/
def pyStrOfBool : Bool → String
  | true => "True"
  | false => "False"

/-- The dedup signature string
`f"{text}{timestamp}{len(images)}{bool(video_url)}"`, the md5 of which is
stored in `seen_tweets`; the digest is modelled by its injective
preimage. -/
def tweetSig (text : String) (t : Tweet) : String :=
  text ++ pyStrOfOptTs t.timestamp ++ toString t.images.length
    ++ pyStrOfBool t.videoUrl.isSome

/-- Processing of one visible tweet inside the scan loop: skip when no
text was found, skip when the signature was seen, otherwise record the
signature and create the memo (the created signature is returned). -/
def processTweet (seen : List String) (t : Tweet) : List String × Option String :=
  match combinedText t with
  | none => (seen, none)
  | some text =>
      let sig := tweetSig text t
      if sig ∈ seen then (seen, none)
      else (sig :: seen, some sig)

/-- One pass over the visible tweets: threads the seen set and collects
the signatures for which a creation request was issued, in order. -/
def scanTweets (seen : List String) : List Tweet → List String × List String
  | [] => (seen, [])
  | t :: ts =>
      let p := processTweet seen t
      let r := scanTweets p.1 ts
      (r.1, (match p.2 with | some s => [s] | none => []) ++ r.2)

theorem scanTweets_inv (seen : List String) (ts : List Tweet) :
    (scanTweets seen ts).2.Nodup ∧
    (∀ c ∈ (scanTweets seen ts).2, c ∉ seen) ∧
    (∀ s ∈ seen, s ∈ (scanTweets seen ts).1) := by
  induction ts generalizing seen with
  | nil => simp [scanTweets]
  | cons t ts ih =>
    cases hct : combinedText t with
    | none =>
      have hp : processTweet seen t = (seen, none) := by simp [processTweet, hct]
      simp only [scanTweets, hp]
      simpa using ih seen
    | some text =>
      by_cases hs : tweetSig text t ∈ seen
      · have hp : processTweet seen t = (seen, none) := by
          simp [processTweet, hct, hs]
        simp only [scanTweets, hp]
        simpa using ih seen
      · have hp : processTweet seen t = (tweetSig text t :: seen, some (tweetSig text t)) := by
          simp [processTweet, hct, hs]
        simp only [scanTweets, hp]
        obtain ⟨h1, h2, h3⟩ := ih (tweetSig text t :: seen)
        refine ⟨?_, ?_, ?_⟩
        · simp only [List.singleton_append, List.nodup_cons]
          exact ⟨fun hc => (h2 _ hc) (by simp), h1⟩
        · intro c hc
          simp only [List.singleton_append, List.mem_cons] at hc
          rcases hc with rfl | hc
          · exact hs
          · intro hcs
            exact (h2 c hc) (by simp [hcs])
        · intro s hmem
          exact h3 s (by simp [hmem])

/-- C9: across any scan of the run, each signature triggers at most one
creation (the created signatures are distinct and none was already seen),
the seen set only ever grows, and a tweet whose signature is already in
the seen set triggers no creation and leaves the set unchanged. -/
theorem scraper_signature_dedup (seen : List String) (ts : List Tweet)
    (t : Tweet) (text : String)
    (hct : combinedText t = some text)
    (hin : tweetSig text t ∈ seen) :
    (scanTweets seen ts).2.Nodup ∧
    (∀ c ∈ (scanTweets seen ts).2, c ∉ seen) ∧
    (∀ s ∈ seen, s ∈ (scanTweets seen ts).1) ∧
    processTweet seen t = (seen, none) := by
  obtain ⟨h1, h2, h3⟩ := scanTweets_inv seen ts
  exact ⟨h1, h2, h3, by simp [processTweet, hct, hin]⟩

/-- Tweet used to exercise the scraper dedup. -/
def tw0 : Tweet := ⟨["hello"], some "2024-01-01", [], none⟩

/-- Concrete instantiation of `scraper_signature_dedup`: with the
signature of `tw0` already seen, scanning `[tw0]` creates nothing and
keeps the seen set intact. -/
theorem scraper_signature_dedup_witness :
    (scanTweets ["hello2024-01-010False"] [tw0]).2.Nodup ∧
    (∀ c ∈ (scanTweets ["hello2024-01-010False"] [tw0]).2,
      c ∉ ["hello2024-01-010False"]) ∧
    (∀ s ∈ ["hello2024-01-010False"],
      s ∈ (scanTweets ["hello2024-01-010False"] [tw0]).1) ∧
    processTweet ["hello2024-01-010False"] tw0 = (["hello2024-01-010False"], none) :=
  scraper_signature_dedup ["hello2024-01-010False"] [tw0] tw0 "hello"
    (by decide) (by decide)

end BskyMemos
